import Mathlib

set_option autoImplicit false

namespace Rateslib

/-!
Verification of the rateslib calibration core against its specification.
The repository exposes the core only through its typing surface
(`python/rateslib/typing.py`) and a benchmark caller
(`benchmarks/benchmarks.py`); the numerical engine itself
(`rateslib.rs`: `Dual`, `Dual2`, the curve interpolators, `Solver`) is not
part of the visible sources, so the definitions below are modelled from the
specification and each claim is settled against that model.
-/

/-- Modelled from the spec: the AD Number (the `Dual` type of
`rateslib.rs`), a scalar carrying a real value plus a sparse gradient with
respect to named variables; absent tags are implicitly zero, so the
gradient is a total map from tag to partial derivative together with the
finite set of tags it is defined over. Real values are modelled as exact
rationals in place of double precision. -/
structure Dual where
  real : ℚ
  vars : Finset ℕ
  grad : ℕ → ℚ

namespace Dual

/-- Modelled from the spec: an AD Number created as a constant — zero
gradient, empty tag set. -/
def konst (x : ℚ) : Dual :=
  ⟨x, ∅, fun _ => 0⟩

/-- Modelled from the spec: an AD Number created as a free variable —
gradient equal to the unit vector on its own tag. -/
def freeVar (t : ℕ) (x : ℚ) : Dual :=
  ⟨x, {t}, fun s => if s = t then 1 else 0⟩

/-- Modelled from the spec: variable unification before a binary
operation takes the union of the two tag sets, missing entries treated
as zero. -/
def unifyVars (a b : Dual) : Finset ℕ :=
  a.vars ∪ b.vars

/-- Modelled from the spec: addition with its exact analytic first
derivative over the unified tag set. -/
def add (a b : Dual) : Dual :=
  ⟨a.real + b.real, unifyVars a b, fun t => a.grad t + b.grad t⟩

/-- Modelled from the spec: subtraction with its exact analytic first
derivative over the unified tag set. -/
def sub (a b : Dual) : Dual :=
  ⟨a.real - b.real, unifyVars a b, fun t => a.grad t - b.grad t⟩

/-- Modelled from the spec: multiplication with the product rule over
the unified tag set. -/
def mul (a b : Dual) : Dual :=
  ⟨a.real * b.real, unifyVars a b, fun t => b.real * a.grad t + a.real * b.grad t⟩

/-- Scaling by an exact rational constant. -/
def scale (q : ℚ) (a : Dual) : Dual :=
  ⟨q * a.real, a.vars, fun t => q * a.grad t⟩

/-- A first-order AD Number is well formed when its gradient vanishes
outside its tag set. -/
def WF (a : Dual) : Prop :=
  ∀ t : ℕ, t ∉ a.vars → a.grad t = 0

end Dual

/-- Modelled from the spec: numeric-domain errors of the AD arithmetic,
surfaced to the caller of the operation. -/
inductive ArithError where
  | divByZero
  deriving DecidableEq

/-- Modelled from the spec: division. Division by a value whose real part
is zero signals a numeric-domain error to the caller; otherwise the
quotient rule is applied over the unified tag set. -/
def Dual.div (a b : Dual) : Except ArithError Dual :=
  if b.real = 0 then Except.error ArithError.divByZero
  else Except.ok ⟨a.real / b.real, Dual.unifyVars a b,
    fun t => (a.grad t * b.real - a.real * b.grad t) / (b.real * b.real)⟩

/-- Modelled from the spec: the second-order AD Number (`Dual2`), carrying
also a symmetric Hessian map over pairs of tags. -/
structure Dual2 where
  real : ℚ
  vars : Finset ℕ
  grad : ℕ → ℚ
  hess : ℕ → ℕ → ℚ

namespace Dual2

/-- A constant second-order AD Number. -/
def konst (x : ℚ) : Dual2 :=
  ⟨x, ∅, fun _ => 0, fun _ _ => 0⟩

/-- Chain rule for second-order addition. -/
def add (a b : Dual2) : Dual2 :=
  ⟨a.real + b.real, a.vars ∪ b.vars, fun t => a.grad t + b.grad t,
    fun t s => a.hess t s + b.hess t s⟩

/-- Chain rule for second-order multiplication. -/
def mul (a b : Dual2) : Dual2 :=
  ⟨a.real * b.real, a.vars ∪ b.vars,
    fun t => b.real * a.grad t + a.real * b.grad t,
    fun t s => b.real * a.hess t s + a.real * b.hess t s
      + a.grad t * b.grad s + a.grad s * b.grad t⟩

end Dual2

/-- Modelled from the spec: the contextual `Variable` type, a free unknown
identified by its tag set, which behaves as a first-order AD Number with a
unit gradient on each of its own tags when combined with other values. -/
structure Variable where
  real : ℚ
  vars : Finset ℕ

/-- View of a contextual variable as a first-order AD Number. -/
def Variable.toDual (v : Variable) : Dual :=
  ⟨v.real, v.vars, fun t => if t ∈ v.vars then 1 else 0⟩

/-- Upgrade of a first-order AD Number to second order with a zero
Hessian, as the spec requires when mixing orders (never truncation). -/
def Dual.toDual2 (a : Dual) : Dual2 :=
  ⟨a.real, a.vars, a.grad, fun _ _ => 0⟩

/-- Modelled from the spec and from the `DualTypes` alias of
`python/rateslib/typing.py`: the public scalar union
`float | Dual | Dual2 | Variable`. -/
inductive DualTypes where
  | float (x : ℚ)
  | dual (d : Dual)
  | dual2 (d : Dual2)
  | varTag (v : Variable)

namespace DualTypes

/-- Promotion of any public scalar to a first-order AD Number: a plain
float becomes a constant with empty gradient; a second-order number keeps
its first-order content. -/
def asDual : DualTypes → Dual
  | .float x => Dual.konst x
  | .dual d => d
  | .dual2 d => ⟨d.real, d.vars, d.grad⟩
  | .varTag v => v.toDual

/-- Promotion of any public scalar to a second-order AD Number; a
first-order operand is upgraded with a zero Hessian, never truncated. -/
def asDual2 : DualTypes → Dual2
  | .float x => Dual2.konst x
  | .dual d => d.toDual2
  | .dual2 d => d
  | .varTag v => v.toDual.toDual2

/-- Public addition on the scalar union: both operands are promoted to the
highest AD order present before the chain rule is applied. -/
def addDT : DualTypes → DualTypes → DualTypes
  | .float x, .float y => .float (x + y)
  | .dual2 a, b => .dual2 (Dual2.add a b.asDual2)
  | a, .dual2 b => .dual2 (Dual2.add a.asDual2 b)
  | a, b => .dual (Dual.add a.asDual b.asDual)

/-- Public multiplication on the scalar union, with the same promotion
policy as addition. -/
def mulDT : DualTypes → DualTypes → DualTypes
  | .float x, .float y => .float (x * y)
  | .dual2 a, b => .dual2 (Dual2.mul a b.asDual2)
  | a, .dual2 b => .dual2 (Dual2.mul a.asDual2 b)
  | a, b => .dual (Dual.mul a.asDual b.asDual)

end DualTypes

/-- Modelled from the spec and from the `CurveInterpolator` alias of
`python/rateslib/typing.py`: the closed set of interpolation strategies. -/
inductive CurveInterpolator where
  | flatBackward
  | flatForward
  | linear
  | logLinear
  | linearZeroRate
  | null
  deriving DecidableEq

/-- Modelled from the spec: the fixed extrapolation policy class of a
strategy — flat strategies hold the boundary node value, linear
strategies extend the slope of the boundary segment. -/
inductive ExtrapRule where
  | holdBoundary
  | extendSlope
  deriving DecidableEq

/-- Modelled from the spec: the extrapolation class of each strategy.
The spec leaves
the exact per-strategy formulas as documented policy choices; in this
model node values are taken in the interpolation space of the strategy
(log discount factors for log-linear, zero rates for linear-zero-rate),
in which every linear-class strategy is plain linear interpolation, and
the flat and null strategies hold a node value. -/
def CurveInterpolator.extrapRule : CurveInterpolator → ExtrapRule
  | .flatBackward => .holdBoundary
  | .flatForward => .holdBoundary
  | .null => .holdBoundary
  | .linear => .extendSlope
  | .logLinear => .extendSlope
  | .linearZeroRate => .extendSlope

/-- Modelled from the spec: a Curve is an ordered sequence of
(position, AD Number value) nodes, positions strictly increasing,
together with an interpolation strategy and an identifier. -/
structure Curve where
  id : String
  nodes : List (ℚ × Dual)
  interpolator : CurveInterpolator

/-- Modelled from the spec: construction errors, always fatal to the
offending object. -/
inductive ConfigError where
  | tooFewNodes
  | nonMonotonicNodes
  | mismatchedAnchors
  deriving DecidableEq

/-- Checks that a position sequence is strictly increasing. -/
def sortedStrictly : List ℚ → Bool
  | [] => true
  | [_] => true
  | x :: y :: rest => decide (x < y) && sortedStrictly (y :: rest)

/-- A node count is admissible when there are at least two nodes, or
exactly one node under the null strategy. -/
def validNodeCount (interp : CurveInterpolator) (n : ℕ) : Prop :=
  2 ≤ n ∨ (interp = CurveInterpolator.null ∧ n = 1)

instance (interp : CurveInterpolator) (n : ℕ) : Decidable (validNodeCount interp n) := by
  unfold validNodeCount
  infer_instance

/-- Modelled from the spec: curve construction validates the node
sequence — too few nodes (with the null single-node exception) or a
non-monotonic position sequence signal a construction error; a valid
input is stored unchanged. -/
def mkCurve (id : String) (nodes : List (ℚ × Dual)) (interp : CurveInterpolator) :
    Except ConfigError Curve :=
  if validNodeCount interp nodes.length then
    if sortedStrictly (nodes.map Prod.fst) then
      Except.ok ⟨id, nodes, interp⟩
    else
      Except.error ConfigError.nonMonotonicNodes
  else
    Except.error ConfigError.tooFewNodes

/-- The straight line through the segment from (x1, v1) to (x2, v2),
evaluated at p; used both for in-range linear-class interpolation and
for slope-extending extrapolation. -/
def segLine (x1 : ℚ) (v1 : Dual) (x2 : ℚ) (v2 : Dual) (p : ℚ) : Dual :=
  Dual.add v1 (Dual.scale ((p - x1) / (x2 - x1)) (Dual.sub v2 v1))

/-- Modelled from the spec: the value produced for an out-of-range
query from the boundary segment
and the boundary node value, per the fixed extrapolation policy of the
strategy. -/
def extrapValue (interp : CurveInterpolator) (x1 : ℚ) (v1 : Dual) (x2 : ℚ) (v2 : Dual)
    (boundaryVal : Dual) (p : ℚ) : Dual :=
  match interp.extrapRule with
  | ExtrapRule.holdBoundary => boundaryVal
  | ExtrapRule.extendSlope => segLine x1 v1 x2 v2 p

/-- Modelled from the spec: the in-range value on one segment, per
strategy — flat-backward holds the
left node value, flat-forward the right node value, the null passthrough
holds the left node value, and the linear-class strategies interpolate
linearly in their interpolation space. -/
def interpValue (interp : CurveInterpolator) (x1 : ℚ) (v1 : Dual) (x2 : ℚ) (v2 : Dual)
    (p : ℚ) : Dual :=
  match interp with
  | CurveInterpolator.flatBackward => v1
  | CurveInterpolator.flatForward => v2
  | CurveInterpolator.null => v1
  | CurveInterpolator.linear => segLine x1 v1 x2 v2 p
  | CurveInterpolator.logLinear => segLine x1 v1 x2 v2 p
  | CurveInterpolator.linearZeroRate => segLine x1 v1 x2 v2 p

/-- The last two nodes of a node list given as first, second, rest. -/
def lastTwo : (ℚ × Dual) → (ℚ × Dual) → List (ℚ × Dual) → (ℚ × Dual) × (ℚ × Dual)
  | a, b, [] => (a, b)
  | _, b, c :: r => lastTwo b c r

/-- Locates the bracketing segment of an in-range query and applies the
in-range rule of the strategy. -/
def findSeg (interp : CurveInterpolator) : (ℚ × Dual) → List (ℚ × Dual) → ℚ → Dual
  | n1, [], _ => n1.2
  | n1, n2 :: rest, p =>
    if p ≤ n2.1 then interpValue interp n1.1 n1.2 n2.1 n2.2 p
    else findSeg interp n2 rest p

/-- Modelled from the spec: `value_at`. A query on fewer than two nodes
(except the null single-node case) signals a configuration error;
queries before the first node or past the last node extrapolate per the
fixed policy of the strategy; in-range queries interpolate on the
bracketing segment. -/
def valueAt (c : Curve) (p : ℚ) : Except ConfigError Dual :=
  match c.nodes with
  | [] => Except.error ConfigError.tooFewNodes
  | [n] =>
    if c.interpolator = CurveInterpolator.null then Except.ok n.2
    else Except.error ConfigError.tooFewNodes
  | n1 :: n2 :: rest =>
    if p ≤ n1.1 then
      Except.ok (extrapValue c.interpolator n1.1 n1.2 n2.1 n2.2 n1.2 p)
    else
      let lt := lastTwo n1 n2 rest
      if lt.2.1 ≤ p then
        Except.ok (extrapValue c.interpolator lt.1.1 lt.1.2 lt.2.1 lt.2.2 lt.2.2 p)
      else
        Except.ok (findSeg c.interpolator n1 (n2 :: rest) p)

/-- Modelled from the spec: a Composite Curve aggregates an ordered
sequence of constituent curves sharing a common anchor position. -/
structure CompositeCurve where
  id : String
  curves : List Curve

/-- The anchor position of a curve: the position of its first node. -/
def anchorPos (c : Curve) : Option ℚ :=
  (c.nodes.head?).map Prod.fst

/-- Modelled from the spec: composite construction fails when the
constituent anchors are mismatched. -/
def mkCompositeCurve (id : String) (cs : List Curve) : Except ConfigError CompositeCurve :=
  match cs with
  | [] => Except.error ConfigError.tooFewNodes
  | c :: rest =>
    if rest.all (fun d => anchorPos d = anchorPos c) then
      Except.ok ⟨id, c :: rest⟩
    else
      Except.error ConfigError.mismatchedAnchors

/-- Product of the values of a list of curves at a query position, with
errors of any constituent propagated. The spec leaves the exact
combining function as a documented policy choice; this model uses the
product of per-curve values, which for curves anchored at value one
coincides with the product of per-curve ratios relative to the anchor. -/
def productValues : List Curve → ℚ → Except ConfigError Dual
  | [], _ => Except.ok (Dual.konst 1)
  | c :: rest, p =>
    match valueAt c p with
    | Except.error e => Except.error e
    | Except.ok v =>
      match productValues rest p with
      | Except.error e => Except.error e
      | Except.ok w => Except.ok (Dual.mul v w)

/-- Modelled from the spec: `value_at` for a Composite Curve, combining
each constituent value via the composition function, with the resulting
gradient spanning the union of all constituent node variables through
the chain rule of the AD multiplication. -/
def compositeValueAt (cc : CompositeCurve) (p : ℚ) : Except ConfigError Dual :=
  productValues cc.curves p

/-- Modelled from the spec: the calibration problem handed to the
Solver. Instruments are external collaborators exposed only through
their pricing function on the global unknown vector; the Newton update
(Jacobian assembly and the linear or least-squares solve of §4.4) is a
documented policy choice abstracted as `step`; the claims verified here
constrain the iteration, stopping and reporting contract, which holds
for every such update. -/
structure SolverConfig where
  nInst : ℕ
  price : ℕ → List ℚ → ℚ
  target : ℕ → ℚ
  tol : ℚ
  maxIter : ℕ
  step : List ℚ → List ℚ

/-- Modelled from the spec: the residual vector — priced minus target,
elementwise, one entry per instrument. -/
def residuals (cfg : SolverConfig) (x : List ℚ) : List ℚ :=
  (List.range cfg.nInst).map (fun i => cfg.price i x - cfg.target i)

/-- Absolute value on exact rationals, written with an explicit branch. -/
def absQ (q : ℚ) : ℚ :=
  if q < 0 then -q else q

/-- Binary maximum on exact rationals, written with an explicit branch. -/
def maxQ (a b : ℚ) : ℚ :=
  if a ≤ b then b else a

/-- Modelled from the spec: the documented residual norm of this model
— the maximum absolute
component (Chebyshev norm). -/
def maxNorm (l : List ℚ) : ℚ :=
  l.foldr (fun a m => maxQ (absQ a) m) 0

/-- Modelled from the spec: the outcome of a calibration run. Success
carries the converged unknown
vector and the iteration count; non-convergence is reported with the
last iterate, the final residual norm and the iteration count. -/
inductive SolverOutcome where
  | converged (x : List ℚ) (iterations : ℕ)
  | notConverged (x : List ℚ) (finalNorm : ℚ) (iterations : ℕ)
  deriving DecidableEq

/-- The unknown vector after n Newton updates. -/
def stepPow (cfg : SolverConfig) : ℕ → List ℚ → List ℚ
  | 0, x => x
  | n + 1, x => stepPow cfg n (cfg.step x)

/-- Modelled from the spec: the solver iteration. Each pass prices every
instrument, stops successfully as soon as the residual norm falls below
tolerance, applies one Newton update otherwise, and reports
non-convergence with the final residual norm and iteration count once
the iteration budget is exhausted. -/
def iterateSolve (cfg : SolverConfig) : ℕ → ℕ → List ℚ → SolverOutcome
  | k, 0, x =>
    if maxNorm (residuals cfg x) < cfg.tol then SolverOutcome.converged x k
    else SolverOutcome.notConverged x (maxNorm (residuals cfg x)) k
  | k, fuel + 1, x =>
    if maxNorm (residuals cfg x) < cfg.tol then SolverOutcome.converged x k
    else iterateSolve cfg (k + 1) fuel (cfg.step x)

/-- Modelled from the spec: a full calibration run from an initial
unknown vector, bounded by the maximum iteration count. -/
def solve (cfg : SolverConfig) (x0 : List ℚ) : SolverOutcome :=
  iterateSolve cfg 0 cfg.maxIter x0

/-- The unknown vector carried by an outcome. -/
def SolverOutcome.vector : SolverOutcome → List ℚ
  | SolverOutcome.converged x _ => x
  | SolverOutcome.notConverged x _ _ => x

/-- The real parts of the node values of one curve. -/
def curveValuesR (c : Curve) : List ℚ :=
  c.nodes.map (fun n => n.2.real)

/-- Modelled from the spec: the Solver pulls the node values of all
participating curves into one global unknown vector, in registry order. -/
def pullValues : List Curve → List ℚ
  | [] => []
  | c :: cs => curveValuesR c ++ pullValues cs

/-- Pushes a slice of the unknown vector back into the nodes of one
curve, as free-variable AD Numbers tagged by their registry index;
positions are preserved. -/
def pushNodes : List (ℚ × Dual) → List ℚ → ℕ → List (ℚ × Dual)
  | [], _, _ => []
  | n :: ns, [], _ => n :: ns
  | n :: ns, v :: vs, t => (n.1, Dual.freeVar t v) :: pushNodes ns vs (t + 1)

/-- Modelled from the spec: `set_nodes` applied across all curves —
bulk-replaces node values from the unknown vector while preserving
position ordering, node count, strategy and identifier. -/
def pushCurves : List Curve → List ℚ → ℕ → List Curve
  | [], _, _ => []
  | c :: cs, vs, t =>
    let k := c.nodes.length
    ⟨c.id, pushNodes c.nodes (vs.take k) t, c.interpolator⟩ ::
      pushCurves cs (vs.drop k) (t + k)

/-- Modelled from the spec and the benchmark call sites: constructing a
Solver performs the whole calibration — the constructor pulls the node
values into the unknown vector, runs the Newton iteration, and pushes
the final values back into the curves before returning, so the curves
are calibrated as a side effect of construction. Mutation is modelled
by returning the updated curves alongside the outcome. -/
def solverConstruct (cfg : SolverConfig) (curves : List Curve) :
    SolverOutcome × List Curve :=
  let out := solve cfg (pullValues curves)
  (out, pushCurves curves out.vector 0)

/-! Concrete fixtures used by the witness theorems. -/

/-- A two-node linear curve with free-variable node values. -/
def curveA : Curve :=
  ⟨"A", [(0, Dual.freeVar 0 1), (1, Dual.freeVar 1 (9 / 10))], CurveInterpolator.linear⟩

/-- A trivial zero-spread curve: every node value is the constant one. -/
def trivialCurveB : Curve :=
  ⟨"B", [(0, Dual.konst 1), (2, Dual.konst 1)], CurveInterpolator.logLinear⟩

/-- A single-node curve under the null passthrough strategy. -/
def oneNodeCurve : Curve :=
  ⟨"n", [(0, Dual.konst 0)], CurveInterpolator.null⟩

/-- A one-instrument calibration fixture whose initial guess already
prices the instrument at target, so the run converges immediately. -/
def convergingFixture : SolverConfig :=
  ⟨1, fun _ x => x.headD 0, fun _ => 0, 1, 5, id⟩

/-- A one-instrument calibration fixture whose residual never shrinks,
so the run exhausts its iteration budget. -/
def stalledFixture : SolverConfig :=
  ⟨1, fun _ _ => 0, fun _ => 1, 1 / 2, 2, id⟩

/-! Helper lemmas. -/

theorem Dual.eq_of_fields {a b : Dual} (hr : a.real = b.real) (hv : a.vars = b.vars)
    (hg : ∀ t, a.grad t = b.grad t) : a = b := by
  cases a
  cases b
  simp only [Dual.mk.injEq]
  exact ⟨hr, hv, funext hg⟩

theorem Dual.mul_konst_one (a : Dual) : Dual.mul a (Dual.konst 1) = a := by
  refine Dual.eq_of_fields ?_ ?_ ?_
  · simp [Dual.mul, Dual.konst]
  · simp [Dual.mul, Dual.konst, Dual.unifyVars]
  · intro t
    simp [Dual.mul, Dual.konst]

theorem segLine_konst (x1 x2 p : ℚ) (c : ℚ) :
    segLine x1 (Dual.konst c) x2 (Dual.konst c) p = Dual.konst c := by
  refine Dual.eq_of_fields ?_ ?_ ?_
  · simp [segLine, Dual.add, Dual.scale, Dual.sub, Dual.konst]
  · simp [segLine, Dual.add, Dual.scale, Dual.sub, Dual.konst, Dual.unifyVars]
  · intro t
    simp [segLine, Dual.add, Dual.scale, Dual.sub, Dual.konst]

theorem interpValue_konst (interp : CurveInterpolator) (x1 x2 p : ℚ) (c : ℚ) :
    interpValue interp x1 (Dual.konst c) x2 (Dual.konst c) p = Dual.konst c := by
  cases interp <;> simp [interpValue, segLine_konst]

theorem extrapValue_konst (interp : CurveInterpolator) (x1 x2 p : ℚ) (c : ℚ) :
    extrapValue interp x1 (Dual.konst c) x2 (Dual.konst c) (Dual.konst c) p = Dual.konst c := by
  cases h : interp.extrapRule <;> simp [extrapValue, h, segLine_konst]

theorem findSeg_konst (interp : CurveInterpolator) (p : ℚ) :
    ∀ (l : List (ℚ × Dual)) (n1 : ℚ × Dual), n1.2 = Dual.konst 1 →
      (∀ n ∈ l, n.2 = Dual.konst 1) → findSeg interp n1 l p = Dual.konst 1 := by
  intro l
  induction l with
  | nil =>
    intro n1 h1 _
    simp [findSeg, h1]
  | cons n2 rest ih =>
    intro n1 h1 hl
    have h2 : n2.2 = Dual.konst 1 := hl n2 (List.mem_cons_self n2 rest)
    by_cases hp : p ≤ n2.1
    · simp [findSeg, hp, h1, h2, interpValue_konst]
    · simp only [findSeg, hp, if_false]
      exact ih n2 h2 (fun n hn => hl n (List.mem_cons_of_mem n2 hn))

theorem lastTwo_konst :
    ∀ (rest : List (ℚ × Dual)) (n1 n2 : ℚ × Dual), n1.2 = Dual.konst 1 →
      n2.2 = Dual.konst 1 → (∀ n ∈ rest, n.2 = Dual.konst 1) →
      (lastTwo n1 n2 rest).1.2 = Dual.konst 1 ∧ (lastTwo n1 n2 rest).2.2 = Dual.konst 1 := by
  intro rest
  induction rest with
  | nil =>
    intro n1 n2 h1 h2 _
    exact ⟨h1, h2⟩
  | cons n3 r ih =>
    intro n1 n2 h1 h2 hl
    have h3 : n3.2 = Dual.konst 1 := hl n3 (List.mem_cons_self n3 r)
    exact ih n2 n3 h2 h3 (fun n hn => hl n (List.mem_cons_of_mem n3 hn))

/-- A curve all of whose node values are the constant one produces the
constant one at every query position, whatever its strategy. -/
theorem valueAt_konst_one (B : Curve) (hB : ∀ n ∈ B.nodes, n.2 = Dual.konst 1)
    (hvalid : validNodeCount B.interpolator B.nodes.length) (p : ℚ) :
    valueAt B p = Except.ok (Dual.konst 1) := by
  match hnodes : B.nodes with
  | [] =>
    rw [hnodes] at hvalid
    rcases hvalid with h | h
    · simp at h
    · simp at h
  | [n] =>
    have hnull : B.interpolator = CurveInterpolator.null := by
      rw [hnodes] at hvalid
      rcases hvalid with h | h
      · simp at h
      · exact h.1
    have hv : n.2 = Dual.konst 1 := by
      apply hB
      rw [hnodes]
      exact List.mem_singleton.mpr rfl
    simp [valueAt, hnodes, hnull, hv]
  | n1 :: n2 :: rest =>
    have h1 : n1.2 = Dual.konst 1 := by
      apply hB
      rw [hnodes]
      exact List.mem_cons_self _ _
    have h2 : n2.2 = Dual.konst 1 := by
      apply hB
      rw [hnodes]
      exact List.mem_cons_of_mem _ (List.mem_cons_self _ _)
    have hr : ∀ n ∈ rest, n.2 = Dual.konst 1 := by
      intro n hn
      apply hB
      rw [hnodes]
      exact List.mem_cons_of_mem _ (List.mem_cons_of_mem _ hn)
    have hlt := lastTwo_konst rest n1 n2 h1 h2 hr
    by_cases hp1 : p ≤ n1.1
    · rw [valueAt]
      rw [hnodes]
      simp only [hp1, if_true]
      rw [h1, h2, extrapValue_konst]
    · by_cases hp2 : (lastTwo n1 n2 rest).2.1 ≤ p
      · rw [valueAt]
        rw [hnodes]
        simp only [hp1, if_false, hp2, if_true]
        rw [hlt.1, hlt.2, extrapValue_konst]
      · rw [valueAt]
        rw [hnodes]
        simp only [hp1, if_false, hp2]
        rw [findSeg_konst B.interpolator p (n2 :: rest) n1 h1]
        intro n hn
        rcases List.mem_cons.mp hn with h | h
        · rw [h]; exact h2
        · exact hr n h

theorem iterateSolve_converged (cfg : SolverConfig) (fuel : ℕ) :
    ∀ k x x' k', iterateSolve cfg k fuel x = SolverOutcome.converged x' k' →
      maxNorm (residuals cfg x') < cfg.tol ∧ k ≤ k' ∧ k' ≤ k + fuel ∧
      x' = stepPow cfg (k' - k) x := by
  induction fuel with
  | zero =>
    intro k x x' k' h
    by_cases hc : maxNorm (residuals cfg x) < cfg.tol
    · rw [iterateSolve] at h
      simp only [hc, if_true, SolverOutcome.converged.injEq] at h
      obtain ⟨hx, hk⟩ := h
      subst hx
      subst hk
      exact ⟨hc, le_refl _, by omega, by simp [Nat.sub_self, stepPow]⟩
    · rw [iterateSolve] at h
      simp [hc] at h
  | succ fuel ih =>
    intro k x x' k' h
    by_cases hc : maxNorm (residuals cfg x) < cfg.tol
    · rw [iterateSolve] at h
      simp only [hc, if_true, SolverOutcome.converged.injEq] at h
      obtain ⟨hx, hk⟩ := h
      subst hx
      subst hk
      exact ⟨hc, le_refl _, by omega, by simp [Nat.sub_self, stepPow]⟩
    · rw [iterateSolve] at h
      simp only [hc, if_false] at h
      obtain ⟨h1, h2, h3, h4⟩ := ih (k + 1) (cfg.step x) x' k' h
      refine ⟨h1, by omega, by omega, ?_⟩
      have hk : k' - k = (k' - (k + 1)) + 1 := by omega
      rw [hk]
      exact h4

theorem iterateSolve_notConverged (cfg : SolverConfig) (fuel : ℕ) :
    ∀ k x y nrm k', iterateSolve cfg k fuel x = SolverOutcome.notConverged y nrm k' →
      k' = k + fuel ∧ y = stepPow cfg fuel x ∧ nrm = maxNorm (residuals cfg y) ∧
      cfg.tol ≤ nrm := by
  induction fuel with
  | zero =>
    intro k x y nrm k' h
    by_cases hc : maxNorm (residuals cfg x) < cfg.tol
    · rw [iterateSolve] at h
      simp [hc] at h
    · rw [iterateSolve] at h
      simp only [hc, if_false, SolverOutcome.notConverged.injEq] at h
      obtain ⟨hy, hn, hk⟩ := h
      subst hy
      subst hn
      subst hk
      exact ⟨by omega, rfl, rfl, not_lt.mp hc⟩
  | succ fuel ih =>
    intro k x y nrm k' h
    by_cases hc : maxNorm (residuals cfg x) < cfg.tol
    · rw [iterateSolve] at h
      simp [hc] at h
    · rw [iterateSolve] at h
      simp only [hc, if_false] at h
      obtain ⟨h1, h2, h3, h4⟩ := ih (k + 1) (cfg.step x) y nrm k' h
      exact ⟨by omega, h2, h3, h4⟩

theorem stepPow_length (cfg : SolverConfig)
    (hstep : ∀ v : List ℚ, (cfg.step v).length = v.length) :
    ∀ (n : ℕ) (x : List ℚ), (stepPow cfg n x).length = x.length := by
  intro n
  induction n with
  | zero => intro x; rfl
  | succ n ih =>
    intro x
    rw [stepPow]
    rw [ih (cfg.step x)]
    exact hstep x

theorem absQ_eq_abs (q : ℚ) : absQ q = |q| := by
  rw [absQ]
  by_cases h : q < 0
  · rw [if_pos h, abs_of_neg h]
  · rw [if_neg h, abs_of_nonneg (not_lt.mp h)]

theorem maxQ_eq_max (a b : ℚ) : maxQ a b = max a b := by
  rw [maxQ]
  by_cases h : a ≤ b
  · rw [if_pos h, max_eq_right h]
  · rw [if_neg h, max_eq_left (le_of_not_le h)]

theorem maxNorm_cons (a : ℚ) (l : List ℚ) : maxNorm (a :: l) = max |a| (maxNorm l) := by
  rw [maxNorm, List.foldr, maxQ_eq_max, absQ_eq_abs, maxNorm]

theorem abs_le_maxNorm : ∀ (l : List ℚ) (i : ℕ) (h : i < l.length), |l[i]| ≤ maxNorm l := by
  intro l
  induction l with
  | nil =>
    intro i h
    simp at h
  | cons a l ih =>
    intro i h
    cases i with
    | zero =>
      simp only [List.getElem_cons_zero, maxNorm_cons]
      exact le_max_left _ _
    | succ i =>
      simp only [List.getElem_cons_succ, maxNorm_cons]
      exact le_trans (ih i (by simpa using h)) (le_max_right _ _)

theorem residuals_getElem (cfg : SolverConfig) (x : List ℚ) (i : ℕ) :
    (residuals cfg x).length = cfg.nInst ∧
    ∀ h : i < (residuals cfg x).length,
      (residuals cfg x)[i] = cfg.price i x - cfg.target i := by
  constructor
  · simp [residuals]
  · intro h
    simp [residuals]

theorem pushNodes_positions :
    ∀ (ns : List (ℚ × Dual)) (ws : List ℚ) (t : ℕ),
      (pushNodes ns ws t).map Prod.fst = ns.map Prod.fst := by
  intro ns
  induction ns with
  | nil =>
    intro ws t
    cases ws <;> rfl
  | cons n ns ih =>
    intro ws t
    cases ws with
    | nil => rfl
    | cons w ws =>
      simp only [pushNodes, List.map_cons]
      rw [ih ws (t + 1)]

theorem pushNodes_reals :
    ∀ (ns : List (ℚ × Dual)) (ws : List ℚ) (t : ℕ), ws.length = ns.length →
      (pushNodes ns ws t).map (fun n => n.2.real) = ws := by
  intro ns
  induction ns with
  | nil =>
    intro ws t hw
    rw [List.length_nil] at hw
    rw [List.length_eq_zero.mp hw]
    rfl
  | cons n ns ih =>
    intro ws t hw
    cases ws with
    | nil => simp at hw
    | cons w ws =>
      simp only [pushNodes, List.map_cons, List.cons.injEq]
      refine ⟨rfl, ?_⟩
      apply ih ws (t + 1)
      simpa using hw

theorem pullValues_pushCurves :
    ∀ (cs : List Curve) (vs : List ℚ) (t : ℕ), vs.length = (pullValues cs).length →
      pullValues (pushCurves cs vs t) = vs := by
  intro cs
  induction cs with
  | nil =>
    intro vs t hv
    rw [pullValues] at hv
    rw [List.length_nil] at hv
    rw [pushCurves]
    rw [pullValues]
    exact (List.length_eq_zero.mp hv).symm
  | cons c cs ih =>
    intro vs t hv
    have hlen : (pullValues (c :: cs)).length = c.nodes.length + (pullValues cs).length := by
      rw [pullValues]
      simp [curveValuesR]
    rw [hlen] at hv
    rw [pushCurves]
    rw [pullValues]
    have htake : (vs.take c.nodes.length).length = c.nodes.length := by
      rw [List.length_take]
      omega
    have hfirst : curveValuesR ⟨c.id, pushNodes c.nodes (vs.take c.nodes.length) t,
        c.interpolator⟩ = vs.take c.nodes.length := by
      rw [curveValuesR]
      exact pushNodes_reals c.nodes (vs.take c.nodes.length) t htake
    rw [hfirst]
    rw [ih (vs.drop c.nodes.length) (t + c.nodes.length) (by rw [List.length_drop]; omega)]
    exact List.take_append_drop _ _

theorem pushCurves_frame :
    ∀ (cs : List Curve) (vs : List ℚ) (t : ℕ),
      List.Forall₂ (fun c c' : Curve =>
        c'.id = c.id ∧ c'.interpolator = c.interpolator ∧
        c'.nodes.map Prod.fst = c.nodes.map Prod.fst) cs (pushCurves cs vs t) := by
  intro cs
  induction cs with
  | nil =>
    intro vs t
    exact List.Forall₂.nil
  | cons c cs ih =>
    intro vs t
    rw [pushCurves]
    exact List.Forall₂.cons ⟨rfl, rfl, pushNodes_positions c.nodes _ t⟩ (ih _ _)

/-! Claim theorems. -/

/-- Claim C5: querying any validly constructed curve at a position
outside its node range never reaches the error branch of value_at: a
single-node curve (valid only under the null strategy) always succeeds
holding its one node value, and a curve with at least two nodes always
succeeds with the value given by the fixed extrapolation policy of the
strategy — flat strategies hold the boundary node value, linear
strategies extend the slope of the boundary segment. -/
theorem valueAt_extrapolates_out_of_range (c : Curve) (p : ℚ)
    (hvalid : validNodeCount c.interpolator c.nodes.length) :
    (∀ n : ℚ × Dual, c.nodes = [n] → valueAt c p = Except.ok n.2) ∧
    (∀ (n1 n2 : ℚ × Dual) (rest : List (ℚ × Dual)), c.nodes = n1 :: n2 :: rest →
      (p ≤ n1.1 →
        valueAt c p = Except.ok (extrapValue c.interpolator n1.1 n1.2 n2.1 n2.2 n1.2 p) ∧
        (c.interpolator.extrapRule = ExtrapRule.holdBoundary →
          valueAt c p = Except.ok n1.2) ∧
        (c.interpolator.extrapRule = ExtrapRule.extendSlope →
          valueAt c p = Except.ok (segLine n1.1 n1.2 n2.1 n2.2 p))) ∧
      (n1.1 < p → (lastTwo n1 n2 rest).2.1 ≤ p →
        valueAt c p = Except.ok (extrapValue c.interpolator (lastTwo n1 n2 rest).1.1
          (lastTwo n1 n2 rest).1.2 (lastTwo n1 n2 rest).2.1 (lastTwo n1 n2 rest).2.2
          (lastTwo n1 n2 rest).2.2 p) ∧
        (c.interpolator.extrapRule = ExtrapRule.holdBoundary →
          valueAt c p = Except.ok (lastTwo n1 n2 rest).2.2) ∧
        (c.interpolator.extrapRule = ExtrapRule.extendSlope →
          valueAt c p = Except.ok (segLine (lastTwo n1 n2 rest).1.1 (lastTwo n1 n2 rest).1.2
            (lastTwo n1 n2 rest).2.1 (lastTwo n1 n2 rest).2.2 p)))) := by
  constructor
  · intro n hn
    have hnull : c.interpolator = CurveInterpolator.null := by
      rw [hn] at hvalid
      rcases hvalid with h | h
      · simp at h
      · exact h.1
    simp [valueAt, hn, hnull]
  · intro n1 n2 rest hn
    constructor
    · intro hp
      have hval : valueAt c p
          = Except.ok (extrapValue c.interpolator n1.1 n1.2 n2.1 n2.2 n1.2 p) := by
        rw [valueAt, hn]
        simp [hp]
      refine ⟨hval, ?_, ?_⟩
      · intro hr
        rw [hval]
        simp [extrapValue, hr]
      · intro hr
        rw [hval]
        simp [extrapValue, hr]
    · intro hp1 hp2
      have hval : valueAt c p = Except.ok (extrapValue c.interpolator (lastTwo n1 n2 rest).1.1
          (lastTwo n1 n2 rest).1.2 (lastTwo n1 n2 rest).2.1 (lastTwo n1 n2 rest).2.2
          (lastTwo n1 n2 rest).2.2 p) := by
        rw [valueAt, hn]
        simp [not_le.mpr hp1, hp2]
      refine ⟨hval, ?_, ?_⟩
      · intro hr
        rw [hval]
        simp [extrapValue, hr]
      · intro hr
        rw [hval]
        simp [extrapValue, hr]

/-- Witness for claim C5 at concrete inputs: a valid single-node null
curve queried far from its node succeeds with that node value, a linear
curve queried past its last node extends the boundary segment, and a
flat-forward curve queried before its first node holds the first node
value. -/
theorem valueAt_extrapolates_out_of_range_witness :
    valueAt oneNodeCurve 5 = Except.ok (Dual.konst 0) ∧
    valueAt ⟨"w", [(0, Dual.konst 1), (1, Dual.konst 2)], CurveInterpolator.linear⟩ 2
      = Except.ok (segLine 0 (Dual.konst 1) 1 (Dual.konst 2) 2) ∧
    valueAt ⟨"v", [(0, Dual.konst 1), (1, Dual.konst 2)], CurveInterpolator.flatForward⟩ (-1)
      = Except.ok (Dual.konst 1) := by
  refine ⟨?_, ?_, ?_⟩
  · exact (valueAt_extrapolates_out_of_range oneNodeCurve 5
      (Or.inr ⟨rfl, rfl⟩)).1 (0, Dual.konst 0) rfl
  · exact (((valueAt_extrapolates_out_of_range
      ⟨"w", [(0, Dual.konst 1), (1, Dual.konst 2)], CurveInterpolator.linear⟩ 2
      (Or.inl (by norm_num))).2
      (0, Dual.konst 1) (1, Dual.konst 2) [] rfl).2
      (by norm_num) (by norm_num [lastTwo])).2.2 rfl
  · exact (((valueAt_extrapolates_out_of_range
      ⟨"v", [(0, Dual.konst 1), (1, Dual.konst 2)], CurveInterpolator.flatForward⟩ (-1)
      (Or.inl (by norm_num))).2
      (0, Dual.konst 1) (1, Dual.konst 2) [] rfl).1
      (by norm_num)).2.1 rfl

/-- Claim C6: constructing a curve with fewer than two nodes signals a
configuration error unless the strategy is the null passthrough with
exactly one node, which is accepted; a position sequence that is not
strictly increasing signals a construction error; a successful
construction stores the inputs unchanged, so invalid inputs are never
silently repaired; and querying any curve that holds fewer than two
nodes likewise signals the configuration error, except the null
single-node case. -/
theorem curve_construction_validates (id : String) (nodes : List (ℚ × Dual))
    (interp : CurveInterpolator) :
    (nodes.length < 2 → ¬(interp = CurveInterpolator.null ∧ nodes.length = 1) →
      mkCurve id nodes interp = Except.error ConfigError.tooFewNodes) ∧
    (interp = CurveInterpolator.null → nodes.length = 1 →
      mkCurve id nodes interp = Except.ok ⟨id, nodes, interp⟩) ∧
    (2 ≤ nodes.length → sortedStrictly (nodes.map Prod.fst) = false →
      mkCurve id nodes interp = Except.error ConfigError.nonMonotonicNodes) ∧
    (∀ c : Curve, mkCurve id nodes interp = Except.ok c →
      validNodeCount interp nodes.length ∧
      sortedStrictly (nodes.map Prod.fst) = true ∧ c = ⟨id, nodes, interp⟩) ∧
    (∀ (c : Curve) (p : ℚ), c.nodes = [] →
      valueAt c p = Except.error ConfigError.tooFewNodes) ∧
    (∀ (c : Curve) (p : ℚ) (n : ℚ × Dual), c.nodes = [n] →
      c.interpolator ≠ CurveInterpolator.null →
      valueAt c p = Except.error ConfigError.tooFewNodes) := by
  refine ⟨?_, ?_, ?_, ?_, ?_, ?_⟩
  · intro h1 h2
    have hv : ¬ validNodeCount interp nodes.length := by
      rintro (hge | hnull)
      · omega
      · exact h2 hnull
    simp [mkCurve, hv]
  · intro hi hl
    obtain ⟨n, hn⟩ := List.length_eq_one.mp hl
    subst hn
    have hv : validNodeCount interp 1 := Or.inr ⟨hi, rfl⟩
    simp [mkCurve, hv, sortedStrictly]
  · intro h1 h2
    have hv : validNodeCount interp nodes.length := Or.inl h1
    simp [mkCurve, hv, h2]
  · intro c hc
    by_cases hv : validNodeCount interp nodes.length
    · by_cases hs : sortedStrictly (nodes.map Prod.fst) = true
      · refine ⟨hv, hs, ?_⟩
        rw [mkCurve] at hc
        simp [hv, hs] at hc
        exact hc.symm
      · rw [mkCurve] at hc
        simp [hv, hs] at hc
    · rw [mkCurve] at hc
      simp [hv] at hc
  · intro c p hc
    rw [valueAt, hc]
  · intro c p n hc hnull
    rw [valueAt, hc]
    simp [hnull]

/-- Witness for claim C6 at concrete inputs: an empty linear curve and a
two-node linear curve with decreasing positions are rejected with the
corresponding errors, a single-node null curve is accepted unchanged,
and querying an empty linear curve or a single-node linear curve fails
with the configuration error. -/
theorem curve_construction_validates_witness :
    mkCurve "c" [] CurveInterpolator.linear = Except.error ConfigError.tooFewNodes ∧
    mkCurve "c" [(0, Dual.konst 1)] CurveInterpolator.null
      = Except.ok ⟨"c", [(0, Dual.konst 1)], CurveInterpolator.null⟩ ∧
    mkCurve "c" [(1, Dual.konst 1), (0, Dual.konst 1)] CurveInterpolator.linear
      = Except.error ConfigError.nonMonotonicNodes ∧
    valueAt ⟨"q", [], CurveInterpolator.linear⟩ 0
      = Except.error ConfigError.tooFewNodes ∧
    valueAt ⟨"r", [(0, Dual.konst 1)], CurveInterpolator.linear⟩ 0
      = Except.error ConfigError.tooFewNodes := by
  refine ⟨?_, ?_, ?_, ?_, ?_⟩
  · exact (curve_construction_validates "c" [] CurveInterpolator.linear).1
      (by simp) (by simp)
  · exact (curve_construction_validates "c" [(0, Dual.konst 1)] CurveInterpolator.null).2.1
      rfl rfl
  · exact (curve_construction_validates "c"
      [(1, Dual.konst 1), (0, Dual.konst 1)] CurveInterpolator.linear).2.2.1
      (by simp) (by norm_num [sortedStrictly])
  · exact (curve_construction_validates "c" [] CurveInterpolator.linear).2.2.2.2.1
      ⟨"q", [], CurveInterpolator.linear⟩ 0 rfl
  · exact (curve_construction_validates "c" [] CurveInterpolator.linear).2.2.2.2.2
      ⟨"r", [(0, Dual.konst 1)], CurveInterpolator.linear⟩ 0 (0, Dual.konst 1) rfl
      (by simp)

/-- Claim C7: a Composite Curve built from a curve A together with a
trivial zero-spread curve B, all of whose node values are one, produces
at every query position exactly the value A produces alone — in
particular the same discount factor, and a gradient that agrees with the
gradient of A on every node variable of A. -/
theorem composite_with_trivial_curve_identity (cid : String) (A B : Curve)
    (hB : ∀ n ∈ B.nodes, n.2 = Dual.konst 1)
    (hvalid : validNodeCount B.interpolator B.nodes.length)
    (_hanchor : anchorPos B = anchorPos A) (p : ℚ) :
    compositeValueAt ⟨cid, [A, B]⟩ p = valueAt A p ∧
    (∀ vA vC : Dual, valueAt A p = Except.ok vA →
      compositeValueAt ⟨cid, [A, B]⟩ p = Except.ok vC →
      vC.real = vA.real ∧ ∀ t ∈ vA.vars, vC.grad t = vA.grad t) := by
  have hBv := valueAt_konst_one B hB hvalid p
  have hmain : compositeValueAt ⟨cid, [A, B]⟩ p = valueAt A p := by
    rw [compositeValueAt]
    cases hA : valueAt A p with
    | error e =>
      simp only [productValues, hA, hBv]
    | ok v =>
      simp only [productValues, hA, hBv, Dual.mul_konst_one]
  refine ⟨hmain, ?_⟩
  intro vA vC hA hC
  rw [hmain, hA] at hC
  injection hC with h
  subst h
  exact ⟨rfl, fun t _ => rfl⟩

/-- Witness for claim C7 at concrete inputs: composing a two-node linear
curve with free-variable values with a trivial all-ones curve reproduces
the value of the first curve at an interior query position. -/
theorem composite_with_trivial_curve_identity_witness :
    compositeValueAt ⟨"comp", [curveA, trivialCurveB]⟩ (1 / 2) = valueAt curveA (1 / 2) := by
  refine (composite_with_trivial_curve_identity "comp" curveA trivialCurveB ?_ ?_ ?_ (1 / 2)).1
  · intro n hn
    simp only [trivialCurveB, List.mem_cons, List.not_mem_nil, or_false] at hn
    rcases hn with h | h <;> subst h <;> rfl
  · exact Or.inl (by norm_num [trivialCurveB])
  · rfl

/-- Claim C2: for every pair of AD Numbers, the product is defined over
the union of the two tag sets, with missing entries treated as zero by
the total gradient map, and its gradient at every tag equals the real
part of b times the gradient of a plus the real part of a times the
gradient of b. -/
theorem mul_gradient_chain_rule (a b : Dual) :
    (Dual.mul a b).vars = a.vars ∪ b.vars ∧
    ∀ t : ℕ, (Dual.mul a b).grad t = b.real * a.grad t + a.real * b.grad t :=
  ⟨rfl, fun _ => rfl⟩

/-- Claim C3: variable unification before a binary operation does not
depend on operand order, and the commutative operations (addition and
multiplication) yield identical results — in particular identical
gradients — when their operands are swapped. -/
theorem commutative_ops_order_independent (a b : Dual) :
    Dual.unifyVars a b = Dual.unifyVars b a ∧
    Dual.add a b = Dual.add b a ∧
    Dual.mul a b = Dual.mul b a := by
  refine ⟨Finset.union_comm _ _, ?_, ?_⟩
  · exact Dual.eq_of_fields (add_comm _ _) (Finset.union_comm _ _) (fun t => add_comm _ _)
  · exact Dual.eq_of_fields (mul_comm _ _) (Finset.union_comm _ _)
      (fun t => by simp only [Dual.mul]; ring)

/-- Claim C4: dividing an AD Number by one whose real part is zero
surfaces a numeric-domain error to the caller rather than producing a
default value, and division by a value with nonzero real part succeeds
with the quotient-rule result. -/
theorem div_by_zero_real_signals_error (a b : Dual) :
    (b.real = 0 → Dual.div a b = Except.error ArithError.divByZero) ∧
    (b.real ≠ 0 → ∃ c : Dual, Dual.div a b = Except.ok c ∧ c.real = a.real / b.real) := by
  constructor
  · intro h
    simp [Dual.div, h]
  · intro h
    refine ⟨⟨a.real / b.real, Dual.unifyVars a b,
      fun t => (a.grad t * b.real - a.real * b.grad t) / (b.real * b.real)⟩, ?_, rfl⟩
    simp [Dual.div, h]

/-- Witness for claim C4 at concrete inputs: dividing the constant one by
the constant zero errors, and dividing by the constant two succeeds with
real part one half. -/
theorem div_by_zero_real_signals_error_witness :
    Dual.div (Dual.konst 1) (Dual.konst 0) = Except.error ArithError.divByZero ∧
    ∃ c : Dual, Dual.div (Dual.konst 1) (Dual.konst 2) = Except.ok c ∧
      c.real = (1 : ℚ) / 2 := by
  constructor
  · exact (div_by_zero_real_signals_error (Dual.konst 1) (Dual.konst 0)).1 rfl
  · obtain ⟨c, hc, hr⟩ :=
      (div_by_zero_real_signals_error (Dual.konst 1) (Dual.konst 2)).2 (by norm_num [Dual.konst])
    exact ⟨c, hc, hr⟩

/-- Claim C9: the public scalar union accepts a plain float wherever an
AD-valued scalar is accepted, and a plain float behaves as a constant AD
Number with empty gradient: combining a float with a first-order number,
a second-order number or a contextual variable yields the same result as
combining the corresponding zero-gradient (and zero-Hessian) constant
with it. -/
theorem float_behaves_as_zero_gradient_constant (x : ℚ) (d : Dual) (d2 : Dual2) (v : Variable) :
    DualTypes.addDT (DualTypes.float x) (DualTypes.dual d)
      = DualTypes.addDT (DualTypes.dual (Dual.konst x)) (DualTypes.dual d) ∧
    DualTypes.mulDT (DualTypes.float x) (DualTypes.dual d)
      = DualTypes.mulDT (DualTypes.dual (Dual.konst x)) (DualTypes.dual d) ∧
    DualTypes.addDT (DualTypes.float x) (DualTypes.dual2 d2)
      = DualTypes.addDT (DualTypes.dual2 (Dual2.konst x)) (DualTypes.dual2 d2) ∧
    DualTypes.mulDT (DualTypes.float x) (DualTypes.dual2 d2)
      = DualTypes.mulDT (DualTypes.dual2 (Dual2.konst x)) (DualTypes.dual2 d2) ∧
    DualTypes.addDT (DualTypes.float x) (DualTypes.varTag v)
      = DualTypes.addDT (DualTypes.dual (Dual.konst x)) (DualTypes.varTag v) ∧
    DualTypes.mulDT (DualTypes.float x) (DualTypes.varTag v)
      = DualTypes.mulDT (DualTypes.dual (Dual.konst x)) (DualTypes.varTag v) :=
  ⟨rfl, rfl, rfl, rfl, rfl, rfl⟩

/-- Claim C8: a calibration run stops successfully only when the residual
norm has fallen below the tolerance, within the iteration budget; when
the budget is exhausted without that happening it reports
non-convergence carrying exactly the final residual norm and the
iteration count, and an unconverged state is never reported as success. -/
theorem solver_convergence_reporting (cfg : SolverConfig) (x0 : List ℚ) :
    (∀ x k, solve cfg x0 = SolverOutcome.converged x k →
      maxNorm (residuals cfg x) < cfg.tol ∧ k ≤ cfg.maxIter) ∧
    (∀ y nrm k, solve cfg x0 = SolverOutcome.notConverged y nrm k →
      k = cfg.maxIter ∧ nrm = maxNorm (residuals cfg y) ∧ cfg.tol ≤ nrm) := by
  constructor
  · intro x k h
    obtain ⟨h1, _, h3, _⟩ := iterateSolve_converged cfg cfg.maxIter 0 x0 x k h
    exact ⟨h1, by omega⟩
  · intro y nrm k h
    obtain ⟨h1, h2, h3, h4⟩ := iterateSolve_notConverged cfg cfg.maxIter 0 x0 y nrm k h
    exact ⟨by omega, h3, h4⟩

/-- Witness for claim C8 at concrete inputs: a fixture that starts at
target converges with residual norm below tolerance, and a fixture whose
residual never shrinks is reported with its final norm and the full
iteration count. -/
theorem solver_convergence_reporting_witness :
    (maxNorm (residuals convergingFixture [0]) < convergingFixture.tol ∧
      0 ≤ convergingFixture.maxIter) ∧
    (2 = stalledFixture.maxIter ∧
      (1 : ℚ) = maxNorm (residuals stalledFixture [0]) ∧ stalledFixture.tol ≤ 1) := by
  constructor
  · refine (solver_convergence_reporting convergingFixture [0]).1 [0] 0 ?_
    norm_num [solve, convergingFixture, iterateSolve, residuals, maxNorm, absQ, maxQ,
      List.range_succ]
  · refine (solver_convergence_reporting stalledFixture [0]).2 [0] 1 2 ?_
    norm_num [solve, stalledFixture, iterateSolve, residuals, maxNorm, absQ, maxQ,
      List.range_succ]

/-- Claim C1: whenever a calibration run reports successful convergence,
re-pricing every calibration instrument against the final calibrated
curves returned by the construction yields a value within the configured
tolerance of the target quote of that instrument. -/
theorem converged_repricing_within_tolerance (cfg : SolverConfig) (curves : List Curve)
    (hstep : ∀ v : List ℚ, (cfg.step v).length = v.length)
    (x : List ℚ) (k : ℕ)
    (h : (solverConstruct cfg curves).1 = SolverOutcome.converged x k)
    (i : ℕ) (hi : i < cfg.nInst) :
    |cfg.price i (pullValues (solverConstruct cfg curves).2) - cfg.target i| < cfg.tol := by
  have h1 : solve cfg (pullValues curves) = SolverOutcome.converged x k := h
  obtain ⟨hnorm, _, _, hx⟩ := iterateSolve_converged cfg cfg.maxIter 0 (pullValues curves) x k h1
  have hxlen : x.length = (pullValues curves).length := by
    rw [hx]
    exact stepPow_length cfg hstep _ _
  have hvec : ((solverConstruct cfg curves).1).vector = x := by
    rw [h]
    rfl
  have hpull : pullValues (solverConstruct cfg curves).2 = x := by
    show pullValues (pushCurves curves ((solverConstruct cfg curves).1).vector 0) = x
    rw [hvec]
    exact pullValues_pushCurves curves x 0 hxlen
  rw [hpull]
  have hres := residuals_getElem cfg x i
  have hlen : i < (residuals cfg x).length := by
    rw [hres.1]
    exact hi
  have hb := abs_le_maxNorm (residuals cfg x) i hlen
  rw [hres.2 hlen] at hb
  exact lt_of_le_of_lt hb hnorm

/-- Witness for claim C1 at a concrete input: after the immediately
converging fixture is calibrated over a single-node curve, re-pricing
the single instrument against the returned curve is within tolerance of
its target. -/
theorem converged_repricing_within_tolerance_witness :
    |convergingFixture.price 0 (pullValues (solverConstruct convergingFixture [oneNodeCurve]).2)
      - convergingFixture.target 0| < convergingFixture.tol := by
  refine converged_repricing_within_tolerance convergingFixture [oneNodeCurve]
    (fun _ => rfl) [0] 0 ?_ 0 (by norm_num [convergingFixture])
  norm_num [solverConstruct, pullValues, curveValuesR, oneNodeCurve, Dual.konst, solve,
    convergingFixture, iterateSolve, residuals, maxNorm, absQ, maxQ, List.range_succ]

/-- Claim C10: constructing a Solver performs the whole calibration as a
side effect of construction: the returned curves differ from the inputs
only in their node values (identifier, strategy, node positions and node
count are unchanged), their node values hold exactly the final unknown
vector of the run, and on a converged run those values satisfy the
convergence criterion, with no further method call. -/
theorem solver_construction_calibrates_curves (cfg : SolverConfig) (curves : List Curve) :
    List.Forall₂ (fun c c' : Curve =>
      c'.id = c.id ∧ c'.interpolator = c.interpolator ∧
      c'.nodes.map Prod.fst = c.nodes.map Prod.fst) curves (solverConstruct cfg curves).2 ∧
    ((∀ v : List ℚ, (cfg.step v).length = v.length) →
      pullValues (solverConstruct cfg curves).2 = ((solverConstruct cfg curves).1).vector ∧
      ∀ x k, (solverConstruct cfg curves).1 = SolverOutcome.converged x k →
        pullValues (solverConstruct cfg curves).2 = x ∧
        maxNorm (residuals cfg x) < cfg.tol) := by
  constructor
  · exact pushCurves_frame curves _ 0
  · intro hstep
    have hveclen : ((solverConstruct cfg curves).1).vector.length
        = (pullValues curves).length := by
      cases hout : solve cfg (pullValues curves) with
      | converged x k =>
        obtain ⟨_, _, _, hx⟩ :=
          iterateSolve_converged cfg cfg.maxIter 0 (pullValues curves) x k hout
        have hset : (solverConstruct cfg curves).1 = SolverOutcome.converged x k := hout
        rw [hset]
        simp only [SolverOutcome.vector]
        rw [hx]
        exact stepPow_length cfg hstep _ _
      | notConverged y nrm k =>
        obtain ⟨_, hy, _, _⟩ :=
          iterateSolve_notConverged cfg cfg.maxIter 0 (pullValues curves) y nrm k hout
        have hset : (solverConstruct cfg curves).1 = SolverOutcome.notConverged y nrm k := hout
        rw [hset]
        simp only [SolverOutcome.vector]
        rw [hy]
        exact stepPow_length cfg hstep _ _
    have hpull : pullValues (solverConstruct cfg curves).2
        = ((solverConstruct cfg curves).1).vector := by
      show pullValues (pushCurves curves ((solverConstruct cfg curves).1).vector 0) = _
      exact pullValues_pushCurves curves _ 0 hveclen
    refine ⟨hpull, ?_⟩
    intro x k h
    have h1 : solve cfg (pullValues curves) = SolverOutcome.converged x k := h
    obtain ⟨hnorm, _, _, _⟩ := iterateSolve_converged cfg cfg.maxIter 0 (pullValues curves) x k h1
    constructor
    · rw [hpull, h]
      rfl
    · exact hnorm

/-- Witness for claim C10 at a concrete input: calibrating the stalled
fixture over a single-node curve returns a curve list with unchanged
identifier, strategy and positions, whose node values hold the final
unknown vector of the run. -/
theorem solver_construction_calibrates_curves_witness :
    List.Forall₂ (fun c c' : Curve =>
      c'.id = c.id ∧ c'.interpolator = c.interpolator ∧
      c'.nodes.map Prod.fst = c.nodes.map Prod.fst) [oneNodeCurve]
      (solverConstruct stalledFixture [oneNodeCurve]).2 ∧
    pullValues (solverConstruct stalledFixture [oneNodeCurve]).2
      = ((solverConstruct stalledFixture [oneNodeCurve]).1).vector := by
  refine ⟨(solver_construction_calibrates_curves stalledFixture [oneNodeCurve]).1, ?_⟩
  exact ((solver_construction_calibrates_curves stalledFixture [oneNodeCurve]).2
    (fun _ => rfl)).1

end Rateslib
